import Mathlib

/-!
Verification of the attendance-tracker core in src/src/types.ts.

The source is a single React component.  Its core state is
  - history : an object mapping date keys (yyyy-MM-dd strings) to arrays of
    attendance records (one per friend), and
  - logs : an array of activity-log entries, newest first, capped at 100.

We embed the state shallowly:
  - a JS object keyed by strings becomes an association list with unique keys;
    the JS spread update with a computed key keeps the position of an existing
    key and appends a fresh key at the end, which is what setKey does;
  - React state setters become explicit state-passing: toggleAttendance and
    resetAttendance are functions from the state to the new state;
  - the wall clock and Math.random id generation are inputs from the
    environment, so the time string and the log-entry id are parameters.
-/

namespace Attendance

/-- The fixed roster of participant names (the FRIENDS constant). -/
def FRIENDS : List String :=
  ["Yolanda", "Fadhil", "Nisa", "Aurel", "Jihan", "Alisa", "Opang", "Clara", "Caca"]

/-- One attendance record: interface AttendanceRecord in the source.
The TS field time : string | null becomes an Option. -/
structure AttendanceRecord where
  name : String
  time : Option String
  isPresent : Bool
  deriving DecidableEq

/-- The history object: interface DailyData, a map from date key to the
record array for that day, embedded as an association list. -/
abbrev DailyData := List (String × List AttendanceRecord)

/-- The all-absent record set derived from the roster:
FRIENDS.map(name => (\x7b name, time: null, isPresent: false \x7d)). -/
def rosterDefault : List AttendanceRecord :=
  FRIENDS.map (fun name => ⟨name, none, false⟩)

/-- JS object update with a computed key (the spread in setHistory):
replacing the value under an existing key keeps its position, a fresh key
is appended at the end. -/
def setKey (k : String) (v : List AttendanceRecord) (m : DailyData) : DailyData :=
  if m.any (fun p => p.1 == k) then
    m.map (fun p => if p.1 == k then (k, v) else p)
  else
    m ++ [(k, v)]

/-- The action field of a log entry: masuk (arrived) or keluar (left). -/
inductive LogAction where
  | masuk
  | keluar
  deriving DecidableEq

/-- One activity-log entry: interface LogEntry in the source. -/
structure LogEntry where
  id : String
  name : String
  action : LogAction
  time : String
  date : String
  deriving DecidableEq

/-- The mutable state of the component: the history object and the log array. -/
structure AppState where
  history : DailyData
  logs : List LogEntry
  deriving DecidableEq

/-- The log update inside toggleAttendance:
setLogs(prevLogs => [newLog, ...prevLogs].slice(0, 100)). -/
def appendLog (e : LogEntry) (logs : List LogEntry) : List LogEntry :=
  (e :: logs).take 100

/-- The currentAttendance memo: history[selectedDate] if that key is present
(a stored array is always truthy in JS), otherwise the roster default.
It reads the history and builds a value; it never writes the store. -/
def currentAttendance (history : DailyData) (selectedDate : String) : List AttendanceRecord :=
  match history.lookup selectedDate with
  | some recs => recs
  | none => rosterDefault

/-- The log entry built inside the map callback of toggleAttendance for a
record that matches the toggled name.  newId stands for the Math.random id. -/
def mkToggleLog (selectedDate name timeStr newId : String)
    (record : AttendanceRecord) : LogEntry :=
  ⟨newId, name, if !record.isPresent then .masuk else .keluar, timeStr, selectedDate⟩

/-- toggleAttendance(name) in the source, with the environment inputs
(selected date, formatted wall-clock time, generated id) as parameters.
The source maps over the day's records (the stored array for the selected
date, or the roster default when absent), flips every record whose name
matches, and fires one setLogs(prepend-then-truncate) per matching record;
the new day array is written back under the selected date key. -/
def toggleAttendance (selectedDate name timeStr newId : String) (st : AppState) : AppState :=
  let dayData := currentAttendance st.history selectedDate
  let updatedDayData := dayData.map (fun record =>
    if record.name == name then
      { record with
          isPresent := !record.isPresent,
          time := if !record.isPresent then some timeStr else none }
    else record)
  let newLogs := (dayData.filter (fun record => record.name == name)).foldl
    (fun logs record => appendLog (mkToggleLog selectedDate name timeStr newId record) logs)
    st.logs
  ⟨setKey selectedDate updatedDayData st.history, newLogs⟩

/-- resetAttendance in the source, past the window.confirm gate (the
confirmation is presentation-layer): overwrite the selected date with the
roster default; the logs are not touched. -/
def resetAttendance (selectedDate : String) (st : AppState) : AppState :=
  ⟨setKey selectedDate rosterDefault st.history, st.logs⟩

/-- The record-shape invariant of the spec: a record is absent exactly when it
carries no check-in time. -/
def RecordOK (r : AttendanceRecord) : Prop :=
  r.isPresent = false ↔ r.time = none

/-- The invariant lifted to the whole history object. -/
def HistoryOK (h : DailyData) : Prop :=
  ∀ p ∈ h, ∀ r ∈ p.2, RecordOK r

/-- Iterated log appends (used to state the 101-appends property). -/
def appendAll (es : List LogEntry) (logs : List LogEntry) : List LogEntry :=
  es.foldl (fun acc e => appendLog e acc) logs

/- Statistics.  The date library (date-fns) is an external collaborator; we
model a calendar date by its epoch-day number (an Int, days since 1970-01-01).
format(d, "yyyy-MM-dd") is injective on dates and parseISO inverts it, so
isSameDay(parseISO(format(d)), now) is day-number equality; the yyyy-MM-dd
key itself is produced by the standard civil-from-days conversion. -/

/-- JS Date#getDay on an epoch-day number: 0 = Sunday, ..., 6 = Saturday
(day 0, 1970-01-01, was a Thursday). -/
def jsGetDay (d : Int) : Int := (d + 4) % 7

/-- date-fns startOfWeek with weekStartsOn = 1 (Monday), on epoch days:
go back (getDay - 1 + 7) mod 7 days. -/
def startOfWeekMon (d : Int) : Int := d - ((jsGetDay d + 6) % 7)

/-- Gregorian calendar fields (year, month, day) of an epoch-day number,
the standard civil-from-days conversion (Int division is Euclidean, which
is floor division for the positive divisors used here). -/
def civilFromDays (z0 : Int) : Int × Int × Int :=
  let z := z0 + 719468
  let era := z / 146097
  let doe := z % 146097
  let yoe := (doe - doe / 1460 + doe / 36524 - doe / 146096) / 365
  let y := yoe + era * 400
  let doy := doe - (365 * yoe + yoe / 4 - yoe / 100)
  let mp := (5 * doy + 2) / 153
  let d := doy - (153 * mp + 2) / 5 + 1
  let m := mp + (if mp < 10 then 3 else -9)
  (y + (if m ≤ 2 then 1 else 0), m, d)

/-- Zero-padding to two digits, as in the yyyy-MM-dd format. -/
def pad2 (n : Int) : String := if n < 10 then "0" ++ toString n else toString n

/-- format(date, "yyyy-MM-dd") on an epoch-day number. -/
def formatDate (z : Int) : String :=
  match civilFromDays z with
  | (y, m, d) => toString y ++ "-" ++ pad2 m ++ "-" ++ pad2 d

/-- format(date, "EEE", locale id): short Indonesian weekday name. -/
def dayNameId (w : Int) : String :=
  if w = 0 then "Min" else if w = 1 then "Sen" else if w = 2 then "Sel"
  else if w = 3 then "Rab" else if w = 4 then "Kam" else if w = 5 then "Jum"
  else "Sab"

/-- One entry of the weeklyStats memo. -/
structure WeeklyStat where
  name : String
  fullDate : String
  count : Nat
  isToday : Bool
  deriving DecidableEq

/-- The weeklyStats memo: the 7 days of the Monday-starting week containing
today, each with the number of present records under its date key (a missing
key counts as the empty array) and an isToday flag. -/
def weeklyStats (todayD : Int) (history : DailyData) : List WeeklyStat :=
  let start := startOfWeekMon todayD
  let days := (List.range 7).map (fun (i : Nat) => start + (i : Int))
  days.map (fun date =>
    let dayData := (history.lookup (formatDate date)).getD []
    { name := dayNameId (jsGetDay date),
      fullDate := formatDate date,
      count := (dayData.filter (fun r => r.isPresent)).length,
      isToday := date == todayD })

/-- One entry of the friendStats memo. -/
structure FriendStat where
  name : String
  total : Nat
  deriving DecidableEq

/-- The body of the friendStats loop for one friend: walk Object.values of the
history and count the day arrays in which this friend has a present record. -/
def friendTotal (history : DailyData) (name : String) : Nat :=
  ((history.map (fun p => p.2)).filter
    (fun records => records.any (fun r => r.name == name && r.isPresent))).length

/-- friendStats before sorting: one entry per roster name, in roster order. -/
def friendStatsBase (history : DailyData) : List FriendStat :=
  FRIENDS.map (fun name => ⟨name, friendTotal history name⟩)

/-- The friendStats memo: sort((a, b) => b.total - a.total) is a stable
descending sort by total, which mergeSort with this comparator is. -/
def friendStats (history : DailyData) : List FriendStat :=
  (friendStatsBase history).mergeSort (fun a b => decide (b.total ≤ a.total))

/- Persistence.  The useState initializers read localStorage and run
JSON.parse on whatever string is stored, with no try/catch and no shape
validation.  We model JSON.parse by an executable parser of JSON text
(none = the SyntaxError JSON.parse throws), and the initializers as
functions of the stored value returning Except: an error is an uncaught
exception escaping the initializer, i.e. a startup fault. -/

/-- A parsed JSON value.  Number literals are kept as their source text,
which is all the model needs. -/
inductive Json where
  | null
  | bool (b : Bool)
  | num (lit : String)
  | str (s : String)
  | arr (elems : List Json)
  | obj (fields : List (String × Json))

/-- The opening-brace character, written by code point. -/
def lbraceChar : Char := Char.ofNat 123

/-- The closing-brace character, written by code point. -/
def rbraceChar : Char := Char.ofNat 125

/-- JSON insignificant whitespace. -/
def jsonWs (c : Char) : Bool :=
  c = ' ' || c = Char.ofNat 9 || c = Char.ofNat 10 || c = Char.ofNat 13

def skipWs : List Char → List Char
  | [] => []
  | c :: cs => if jsonWs c then skipWs cs else c :: cs

/-- Value of a hexadecimal digit. -/
def hexVal (c : Char) : Option Nat :=
  if c.isDigit then some (c.toNat - 48)
  else if 'a' ≤ c && c ≤ 'f' then some (c.toNat - 87)
  else if 'A' ≤ c && c ≤ 'F' then some (c.toNat - 55)
  else none

/-- Body of a JSON string after the opening quote: returns the decoded
string and the input following the closing quote.  Fueled; each step
consumes at least one character, so fuel = length + 1 never runs out. -/
def parseStringBody : Nat → List Char → List Char → Option (String × List Char)
  | 0, _, _ => none
  | _ + 1, [], _ => none
  | fuel + 1, c :: cs, acc =>
    if c = '"' then some (String.mk acc.reverse, cs)
    else if c = '\\' then
      match cs with
      | [] => none
      | e :: cs2 =>
        if e = '"' then parseStringBody fuel cs2 ('"' :: acc)
        else if e = '\\' then parseStringBody fuel cs2 ('\\' :: acc)
        else if e = '/' then parseStringBody fuel cs2 ('/' :: acc)
        else if e = 'b' then parseStringBody fuel cs2 (Char.ofNat 8 :: acc)
        else if e = 'f' then parseStringBody fuel cs2 (Char.ofNat 12 :: acc)
        else if e = 'n' then parseStringBody fuel cs2 (Char.ofNat 10 :: acc)
        else if e = 'r' then parseStringBody fuel cs2 (Char.ofNat 13 :: acc)
        else if e = 't' then parseStringBody fuel cs2 (Char.ofNat 9 :: acc)
        else if e = 'u' then
          match cs2 with
          | h1 :: h2 :: h3 :: h4 :: cs3 =>
            match hexVal h1, hexVal h2, hexVal h3, hexVal h4 with
            | some x1, some x2, some x3, some x4 =>
              parseStringBody fuel cs3
                (Char.ofNat (((x1 * 16 + x2) * 16 + x3) * 16 + x4) :: acc)
            | _, _, _, _ => none
          | _ => none
        else none
    else if c.toNat < 32 then none
    else parseStringBody fuel cs (c :: acc)

/-- Longest digit run at the front of the input. -/
def takeDigits : List Char → List Char × List Char
  | [] => ([], [])
  | c :: cs =>
    if c.isDigit then
      let p := takeDigits cs
      (c :: p.1, p.2)
    else ([], c :: cs)

/-- Fraction and exponent of a JSON number literal, given the consumed
prefix; returns the full literal text. -/
def parseNumTail (acc : List Char) (cs : List Char) : Option (String × List Char) :=
  let fr : Option (List Char × List Char) :=
    match cs with
    | c :: rest =>
      if c = '.' then
        let p := takeDigits rest
        if p.1 = [] then none else some (acc ++ c :: p.1, p.2)
      else some (acc, cs)
    | [] => some (acc, cs)
  match fr with
  | none => none
  | some (acc2, cs2) =>
    match cs2 with
    | c :: rest =>
      if c = 'e' || c = 'E' then
        let sg : List Char × List Char :=
          match rest with
          | s :: r2 => if s = '+' || s = '-' then ([s], r2) else ([], rest)
          | [] => ([], [])
        let p := takeDigits sg.2
        if p.1 = [] then none else some (String.mk (acc2 ++ c :: sg.1 ++ p.1), p.2)
      else some (String.mk acc2, cs2)
    | [] => some (String.mk acc2, cs2)

/-- A JSON number literal: optional minus, then 0 or a nonzero-led digit
run, then fraction and exponent. -/
def parseNumber (cs0 : List Char) : Option (String × List Char) :=
  let sg : List Char × List Char :=
    match cs0 with
    | c :: cs => if c = '-' then ([c], cs) else ([], cs0)
    | [] => ([], [])
  match sg.2 with
  | [] => none
  | c :: rest =>
    if c = '0' then parseNumTail (sg.1 ++ [c]) rest
    else if c.isDigit then
      let p := takeDigits rest
      parseNumTail (sg.1 ++ c :: p.1) p.2
    else none

mutual

/-- A JSON value.  All recursion is through the fuel, which jsonParse sets
far above the nesting depth any input of its length can reach. -/
def parseValue : Nat → List Char → Option (Json × List Char)
  | 0, _ => none
  | fuel + 1, cs0 =>
    match skipWs cs0 with
    | [] => none
    | c :: cs =>
      if c = '"' then
        match parseStringBody (cs.length + 1) cs [] with
        | some (s, rest) => some (.str s, rest)
        | none => none
      else if c = lbraceChar then parseObjectRest fuel cs
      else if c = '[' then parseArrayRest fuel cs
      else if c = 't' then
        match cs with
        | 'r' :: 'u' :: 'e' :: rest => some (.bool true, rest)
        | _ => none
      else if c = 'f' then
        match cs with
        | 'a' :: 'l' :: 's' :: 'e' :: rest => some (.bool false, rest)
        | _ => none
      else if c = 'n' then
        match cs with
        | 'u' :: 'l' :: 'l' :: rest => some (.null, rest)
        | _ => none
      else if c = '-' || c.isDigit then
        match parseNumber (c :: cs) with
        | some (lit, rest) => some (.num lit, rest)
        | none => none
      else none

/-- Inside an object, just after the opening brace. -/
def parseObjectRest : Nat → List Char → Option (Json × List Char)
  | 0, _ => none
  | fuel + 1, cs0 =>
    match skipWs cs0 with
    | [] => none
    | c :: cs =>
      if c = rbraceChar then some (.obj [], cs)
      else if c = '"' then
        match parseStringBody (cs.length + 1) cs [] with
        | some (key, rest1) => parseMembers fuel key [] rest1
        | none => none
      else none

/-- Inside an object, after a member key, expecting a colon. -/
def parseMembers : Nat → String → List (String × Json) → List Char →
    Option (Json × List Char)
  | 0, _, _, _ => none
  | fuel + 1, key, acc, cs0 =>
    match skipWs cs0 with
    | [] => none
    | c :: cs =>
      if c = ':' then
        match parseValue fuel cs with
        | some (v, rest) =>
          match skipWs rest with
          | [] => none
          | c2 :: cs2 =>
            if c2 = ',' then
              match skipWs cs2 with
              | [] => none
              | c3 :: cs3 =>
                if c3 = '"' then
                  match parseStringBody (cs3.length + 1) cs3 [] with
                  | some (key2, rest2) => parseMembers fuel key2 (acc ++ [(key, v)]) rest2
                  | none => none
                else none
            else if c2 = rbraceChar then some (.obj (acc ++ [(key, v)]), cs2)
            else none
        | none => none
      else none

/-- Inside an array, just after the opening bracket. -/
def parseArrayRest : Nat → List Char → Option (Json × List Char)
  | 0, _ => none
  | fuel + 1, cs0 =>
    match skipWs cs0 with
    | [] => none
    | c :: cs =>
      if c = ']' then some (.arr [], cs)
      else parseElements fuel [] cs0

/-- Inside an array, before an element. -/
def parseElements : Nat → List Json → List Char → Option (Json × List Char)
  | 0, _, _ => none
  | fuel + 1, acc, cs0 =>
    match parseValue fuel cs0 with
    | some (v, rest) =>
      match skipWs rest with
      | [] => none
      | c :: cs =>
        if c = ',' then parseElements fuel (acc ++ [v]) cs
        else if c = ']' then some (.arr (acc ++ [v]), cs)
        else none
    | none => none

end

/-- ECMAScript JSON.parse: a single JSON value surrounded by whitespace;
none stands for the thrown SyntaxError. -/
def jsonParse (s : String) : Option Json :=
  match parseValue (s.length * 4 + 16) s.toList with
  | some (v, rest) =>
    match skipWs rest with
    | [] => some v
    | _ :: _ => none
  | none => none

/-- The history useState initializer:
saved = localStorage.getItem("attendance_history_v2");
if (saved) return JSON.parse(saved); return (empty object).
A null or empty (falsy) stored value yields the empty object; otherwise
JSON.parse runs with no try/catch and no shape validation, so its result
is returned as-is and its SyntaxError escapes (the error case). -/
def loadHistory (saved : Option String) : Except String Json :=
  match saved with
  | none => .ok (.obj [])
  | some s =>
    if s.isEmpty then .ok (.obj [])
    else
      match jsonParse s with
      | some v => .ok v
      | none => .error "SyntaxError"

/-- The logs useState initializer:
saved = localStorage.getItem("attendance_logs_v2");
return saved ? JSON.parse(saved) : []. -/
def loadLogs (saved : Option String) : Except String Json :=
  match saved with
  | none => .ok (.arr [])
  | some s =>
    if s.isEmpty then .ok (.arr [])
    else
      match jsonParse s with
      | some v => .ok v
      | none => .error "SyntaxError"

/-- Whether an initializer run ends in an uncaught exception. -/
def isStartupFault (r : Except String Json) : Bool :=
  match r with
  | .error _ => true
  | .ok _ => false

/- Concrete inputs used by the witnesses. -/

/-- A concrete log entry with a distinguishing id. -/
def wLogEntry (i : Nat) : LogEntry :=
  ⟨toString i, "Yolanda", .masuk, "05:00:00", "2024-03-10"⟩

/-- One hundred concrete log entries with ids 1..100. -/
def wEntriesTail : List LogEntry :=
  (List.range 100).map (fun i => wLogEntry (i + 1))

/- Association-list lemmas about setKey and lookup. -/

theorem lookup_replace (k : String) (v : List AttendanceRecord) (m : DailyData)
    (h : m.any (fun p => p.1 == k) = true) :
    (m.map (fun p => if p.1 == k then (k, v) else p)).lookup k = some v := by
  induction m with
  | nil => simp at h
  | cons p rest ih =>
    obtain ⟨a, b⟩ := p
    cases hp : (a == k) with
    | true =>
      have hpk : a = k := by simpa [beq_iff_eq] using hp
      subst hpk
      simp [List.lookup_cons]
    | false =>
      simp only [List.any_cons, hp, Bool.false_or] at h
      have hk : (k == a) = false := by
        simp only [beq_eq_false_iff_ne] at hp ⊢
        exact fun hkp => hp hkp.symm
      simp only [List.map_cons, hp, Bool.false_eq_true, if_false, List.lookup_cons, hk]
      exact ih h

theorem lookup_append_fresh (k : String) (v : List AttendanceRecord) (m : DailyData)
    (h : m.any (fun p => p.1 == k) = false) :
    (m ++ [(k, v)]).lookup k = some v := by
  induction m with
  | nil => simp [List.lookup_cons]
  | cons p rest ih =>
    obtain ⟨a, b⟩ := p
    simp only [List.any_cons, Bool.or_eq_false_iff] at h
    have hk : (k == a) = false := by
      have h1 := h.1
      simp only [beq_eq_false_iff_ne] at h1 ⊢
      exact fun hkp => h1 hkp.symm
    simp only [List.cons_append, List.lookup_cons, hk]
    exact ih h.2

/-- Writing a key makes it readable: lookup after setKey at the same key. -/
theorem lookup_setKey_self (k : String) (v : List AttendanceRecord) (m : DailyData) :
    (setKey k v m).lookup k = some v := by
  unfold setKey
  cases hany : m.any (fun p => p.1 == k) with
  | true =>
    simp only [hany, if_true]
    exact lookup_replace k v m hany
  | false =>
    simp only [hany, Bool.false_eq_true, if_false]
    exact lookup_append_fresh k v m hany

theorem lookup_map_replace_ne (k k2 : String) (v : List AttendanceRecord) (m : DailyData)
    (h : k2 ≠ k) :
    (m.map (fun p => if p.1 == k then (k, v) else p)).lookup k2 = m.lookup k2 := by
  induction m with
  | nil => rfl
  | cons p rest ih =>
    obtain ⟨a, b⟩ := p
    cases hp : (a == k) with
    | true =>
      have hpk : a = k := by simpa [beq_iff_eq] using hp
      have h2 : (k2 == a) = false := by
        simp only [beq_eq_false_iff_ne]; rw [hpk]; exact h
      have h2' : (k2 == k) = false := by
        simp only [beq_eq_false_iff_ne]; exact h
      simp only [List.map_cons, hp, if_true, List.lookup_cons, h2, h2']
      exact ih
    | false =>
      simp only [List.map_cons, hp, Bool.false_eq_true, if_false, List.lookup_cons]
      cases hk2 : (k2 == a) with
      | true => rfl
      | false => exact ih

theorem lookup_append_singleton_ne (k k2 : String) (v : List AttendanceRecord)
    (m : DailyData) (h : k2 ≠ k) :
    (m ++ [(k, v)]).lookup k2 = m.lookup k2 := by
  induction m with
  | nil =>
    have h2 : (k2 == k) = false := by simp only [beq_eq_false_iff_ne]; exact h
    simp [List.lookup_cons, h2, List.lookup]
  | cons p rest ih =>
    obtain ⟨a, b⟩ := p
    simp only [List.cons_append, List.lookup_cons]
    cases hk2 : (k2 == a) with
    | true => rfl
    | false => exact ih

/-- Writing a key leaves every other key unchanged. -/
theorem lookup_setKey_ne (k k2 : String) (v : List AttendanceRecord) (m : DailyData)
    (h : k2 ≠ k) :
    (setKey k v m).lookup k2 = m.lookup k2 := by
  unfold setKey
  cases hany : m.any (fun p => p.1 == k) with
  | true =>
    simp only [hany, if_true]
    exact lookup_map_replace_ne k k2 v m h
  | false =>
    simp only [hany, Bool.false_eq_true, if_false]
    exact lookup_append_singleton_ne k k2 v m h

/-- Every pair of the updated map either carries the written value or was
already present. -/
theorem mem_setKey (k : String) (v : List AttendanceRecord) (m : DailyData)
    (q : String × List AttendanceRecord) (hq : q ∈ setKey k v m) :
    q.2 = v ∨ q ∈ m := by
  unfold setKey at hq
  cases hany : m.any (fun p => p.1 == k) with
  | true =>
    rw [hany, if_pos rfl] at hq
    rw [List.mem_map] at hq
    obtain ⟨p, hp, hfp⟩ := hq
    cases hpk : (p.1 == k) with
    | true =>
      rw [hpk, if_pos rfl] at hfp
      left; rw [← hfp]
    | false =>
      rw [hpk] at hfp
      simp only [Bool.false_eq_true, if_false] at hfp
      right; rw [← hfp]; exact hp
  | false =>
    rw [hany] at hq
    simp only [Bool.false_eq_true, if_false, List.mem_append, List.mem_singleton] at hq
    rcases hq with hq | hq
    · right; exact hq
    · left; rw [hq]

/-- A successful lookup exhibits a stored pair. -/
theorem lookup_some_mem (k : String) (m : DailyData) (v : List AttendanceRecord)
    (h : m.lookup k = some v) : (k, v) ∈ m := by
  induction m with
  | nil => simp [List.lookup] at h
  | cons p rest ih =>
    obtain ⟨a, b⟩ := p
    rw [List.lookup_cons] at h
    cases hk : (k == a) with
    | true =>
      rw [hk] at h
      simp only [Option.some.injEq] at h
      have hkp : k = a := by simpa [beq_iff_eq] using hk
      subst hkp
      subst h
      exact List.mem_cons_self _ _
    | false =>
      rw [hk] at h
      exact List.mem_cons_of_mem _ (ih h)

/- Generic list helpers. -/

theorem map_noop {α : Type} (f : α → α) (l : List α) (h : ∀ x ∈ l, f x = x) :
    l.map f = l := by
  induction l with
  | nil => rfl
  | cons a as ih =>
    rw [List.map_cons, h a (List.mem_cons_self a as),
      ih (fun x hx => h x (List.mem_cons_of_mem a hx))]

theorem filter_none {α : Type} (pred : α → Bool) (l : List α)
    (h : ∀ x ∈ l, pred x = false) : l.filter pred = [] := by
  induction l with
  | nil => rfl
  | cons a as ih =>
    rw [List.filter_cons, h a (List.mem_cons_self a as)]
    simp only [Bool.false_eq_true, if_false]
    exact ih (fun x hx => h x (List.mem_cons_of_mem a hx))

/- What toggleAttendance does when the day array contains the toggled name
exactly once (the decomposition hypotheses say: once, at the split point). -/

theorem toggleAttendance_decomp (st : AppState) (d p t nid : String)
    (pre post : List AttendanceRecord) (r : AttendanceRecord)
    (hdecomp : currentAttendance st.history d = pre ++ r :: post)
    (hname : r.name = p)
    (hpre : ∀ x ∈ pre, x.name ≠ p) (hpost : ∀ x ∈ post, x.name ≠ p) :
    toggleAttendance d p t nid st =
      ⟨setKey d
        (pre ++ ⟨r.name, if !r.isPresent then some t else none, !r.isPresent⟩ :: post)
        st.history,
       appendLog ⟨nid, p, if !r.isPresent then LogAction.masuk else LogAction.keluar, t, d⟩
         st.logs⟩ := by
  unfold toggleAttendance
  dsimp only
  rw [hdecomp]
  have hmain : (r.name == p) = true := by simp [beq_iff_eq, hname]
  have hpre2 : ∀ x ∈ pre, (x.name == p) = false := by
    intro x hx; simp [beq_eq_false_iff_ne]; exact hpre x hx
  have hpost2 : ∀ x ∈ post, (x.name == p) = false := by
    intro x hx; simp [beq_eq_false_iff_ne]; exact hpost x hx
  have hmap :
      (pre ++ r :: post).map (fun record =>
        if record.name == p then
          { record with
              isPresent := !record.isPresent,
              time := if !record.isPresent then some t else none }
        else record) =
      pre ++ ⟨r.name, if !r.isPresent then some t else none, !r.isPresent⟩ :: post := by
    rw [List.map_append, List.map_cons]
    rw [map_noop _ pre (fun x hx => by rw [hpre2 x hx]; simp),
        map_noop _ post (fun x hx => by rw [hpost2 x hx]; simp)]
    rw [hmain]
    rfl
  have hfilter : (pre ++ r :: post).filter (fun record => record.name == p) = [r] := by
    rw [List.filter_append, List.filter_cons]
    rw [filter_none _ pre hpre2, filter_none _ post hpost2, hmain]
    rfl
  rw [hmap, hfilter]
  rfl

/-- toggleAttendance when no record of the day matches the toggled name:
the map is the identity, the filter is empty so no setLogs fires, but the
day key is still written back. -/
theorem toggleAttendance_no_match (st : AppState) (d p t nid : String)
    (hp : ∀ x ∈ currentAttendance st.history d, x.name ≠ p) :
    toggleAttendance d p t nid st =
      ⟨setKey d (currentAttendance st.history d) st.history, st.logs⟩ := by
  unfold toggleAttendance
  dsimp only
  have hp2 : ∀ x ∈ currentAttendance st.history d, (x.name == p) = false := by
    intro x hx
    simp only [beq_eq_false_iff_ne]
    exact hp x hx
  rw [map_noop _ _ (fun x hx => by rw [hp2 x hx]; simp)]
  rw [filter_none _ _ hp2]
  rfl

/-- Claim C2: for a date with no stored entry, reading the day returns the
all-absent default: one record per roster name (9 of them), in roster
order, each absent with no time; the read itself is a pure function of the
store (it returns a value and performs no write). -/
theorem claim_c2_getday_default (h : DailyData) (d : String)
    (hd : h.lookup d = none) :
    currentAttendance h d = rosterDefault ∧
    (currentAttendance h d).length = 9 ∧
    (currentAttendance h d).map (fun r => r.name) = FRIENDS ∧
    ∀ r ∈ currentAttendance h d, r.isPresent = false ∧ r.time = none := by
  have hc : currentAttendance h d = rosterDefault := by
    unfold currentAttendance
    rw [hd]
  refine ⟨hc, ?_, ?_, ?_⟩
  · rw [hc]; rfl
  · rw [hc]; rfl
  · rw [hc]; decide

/-- Witness for claim C2 at the empty store and a concrete date. -/
theorem claim_c2_witness :
    ([] : DailyData).lookup "2024-03-10" = none ∧
    (currentAttendance [] "2024-03-10" = rosterDefault ∧
     (currentAttendance [] "2024-03-10").length = 9 ∧
     (currentAttendance [] "2024-03-10").map (fun r => r.name) = FRIENDS ∧
     ∀ r ∈ currentAttendance [] "2024-03-10", r.isPresent = false ∧ r.time = none) :=
  ⟨rfl, claim_c2_getday_default [] "2024-03-10" rfl⟩

/-- Claim C7: reset overwrites the selected date with the all-absent roster
default, leaves every other date key unchanged and leaves the log exactly
as it was. -/
theorem claim_c7_reset (st : AppState) (d : String) :
    (resetAttendance d st).history.lookup d = some rosterDefault ∧
    (∀ d2, d2 ≠ d →
      (resetAttendance d st).history.lookup d2 = st.history.lookup d2) ∧
    (resetAttendance d st).logs = st.logs ∧
    rosterDefault.map (fun r => r.name) = FRIENDS ∧
    ∀ r ∈ rosterDefault, r.isPresent = false ∧ r.time = none := by
  refine ⟨lookup_setKey_self d rosterDefault st.history,
    fun d2 hd2 => lookup_setKey_ne d d2 rosterDefault st.history hd2,
    rfl, rfl, by decide⟩

/-- Witness for claim C7 at a concrete state, date and other date. -/
theorem claim_c7_witness :
    (resetAttendance "2024-03-10" ⟨[], []⟩).history.lookup "2024-03-10" = some rosterDefault ∧
    (resetAttendance "2024-03-10" ⟨[], []⟩).history.lookup "2024-03-11" =
      ([] : DailyData).lookup "2024-03-11" ∧
    (resetAttendance "2024-03-10" ⟨[], []⟩).logs = [] :=
  ⟨(claim_c7_reset ⟨[], []⟩ "2024-03-10").1,
   (claim_c7_reset ⟨[], []⟩ "2024-03-10").2.1 "2024-03-11" (by decide),
   (claim_c7_reset ⟨[], []⟩ "2024-03-10").2.2.1⟩

/-- Claim C10: toggling a name that occurs in none of the day's records
changes no record and appends nothing to the log, but does write the day
key into the store (materializing the default set when the day was absent):
a silent no-op on records rather than a fault. -/
theorem claim_c10_toggle_unknown (st : AppState) (d p t nid : String)
    (hp : ∀ x ∈ currentAttendance st.history d, x.name ≠ p) :
    (toggleAttendance d p t nid st).logs = st.logs ∧
    (toggleAttendance d p t nid st).history.lookup d =
      some (currentAttendance st.history d) ∧
    (∀ recs, st.history.lookup d = some recs →
      (toggleAttendance d p t nid st).history.lookup d = some recs) ∧
    (st.history.lookup d = none →
      (toggleAttendance d p t nid st).history.lookup d = some rosterDefault) ∧
    (∀ d2, d2 ≠ d →
      (toggleAttendance d p t nid st).history.lookup d2 = st.history.lookup d2) := by
  rw [toggleAttendance_no_match st d p t nid hp]
  refine ⟨rfl, lookup_setKey_self d _ st.history, ?_, ?_,
    fun d2 h2 => lookup_setKey_ne d d2 _ st.history h2⟩
  · intro recs hrecs
    have hc : currentAttendance st.history d = recs := by
      unfold currentAttendance
      rw [hrecs]
    rw [hc]
    exact lookup_setKey_self d recs st.history
  · intro hnone
    have hc : currentAttendance st.history d = rosterDefault := by
      unfold currentAttendance
      rw [hnone]
    rw [hc]
    exact lookup_setKey_self d rosterDefault st.history

/-- Witness for claim C10: a name outside the roster, on the empty store. -/
theorem claim_c10_witness :
    (toggleAttendance "2024-03-10" "Zorro" "05:00:00" "id1" ⟨[], []⟩).logs = [] ∧
    (toggleAttendance "2024-03-10" "Zorro" "05:00:00" "id1" ⟨[], []⟩).history.lookup
      "2024-03-10" = some rosterDefault :=
  ⟨(claim_c10_toggle_unknown ⟨[], []⟩ "2024-03-10" "Zorro" "05:00:00" "id1" (by decide)).1,
   (claim_c10_toggle_unknown ⟨[], []⟩ "2024-03-10" "Zorro" "05:00:00" "id1"
      (by decide)).2.2.2.1 rfl⟩

/-- Every roster-default record satisfies the record invariant. -/
theorem rosterDefault_ok : ∀ r ∈ rosterDefault, RecordOK r := by
  intro r hr
  simp only [rosterDefault, List.mem_map] at hr
  obtain ⟨n, _, he⟩ := hr
  rw [← he]
  exact ⟨fun _ => rfl, fun _ => rfl⟩

/-- Records read through currentAttendance satisfy the invariant when the
store does. -/
theorem currentAttendance_ok (h : DailyData) (d : String) (hin : HistoryOK h) :
    ∀ r ∈ currentAttendance h d, RecordOK r := by
  cases hl : h.lookup d with
  | some recs =>
    rw [show currentAttendance h d = recs from by unfold currentAttendance; rw [hl]]
    exact fun r hr => hin (d, recs) (lookup_some_mem d h recs hl) r hr
  | none =>
    rw [show currentAttendance h d = rosterDefault from by unfold currentAttendance; rw [hl]]
    exact rosterDefault_ok

/-- The record produced by the toggle map callback satisfies the invariant:
a transition to present stores the time, a transition to absent clears it. -/
theorem toggled_record_ok (p t : String) (x : AttendanceRecord) (hx : RecordOK x) :
    RecordOK (if x.name == p then
      { x with
          isPresent := !x.isPresent,
          time := if !x.isPresent then some t else none }
    else x) := by
  cases hxp : (x.name == p) with
  | false =>
    simp only [hxp, Bool.false_eq_true, if_false]
    exact hx
  | true =>
    simp only [hxp, if_true]
    cases hpres : x.isPresent with
    | true => simp [RecordOK, hpres]
    | false => simp [RecordOK, hpres]

/-- The store invariant is preserved by toggleAttendance. -/
theorem historyOK_toggle (st : AppState) (d p t nid : String)
    (hin : HistoryOK st.history) :
    HistoryOK (toggleAttendance d p t nid st).history := by
  unfold toggleAttendance
  dsimp only
  intro q hq r hr
  rcases mem_setKey _ _ _ q hq with hv | hold
  · rw [hv] at hr
    rw [List.mem_map] at hr
    obtain ⟨x, hx, hfx⟩ := hr
    rw [← hfx]
    exact toggled_record_ok p t x (currentAttendance_ok st.history d hin x hx)
  · exact hin q hold r hr

/-- The store invariant is preserved by resetAttendance. -/
theorem historyOK_reset (st : AppState) (d : String) (hin : HistoryOK st.history) :
    HistoryOK (resetAttendance d st).history := by
  unfold resetAttendance
  intro q hq r hr
  rcases mem_setKey _ _ _ q hq with hv | hold
  · rw [hv] at hr
    exact rosterDefault_ok r hr
  · exact hin q hold r hr

/-- Claim C5: starting from a store in which every record satisfies
isPresent = false iff time = none, the invariant still holds for every
record of every date after any toggle and after any reset. -/
theorem claim_c5_invariant (st : AppState) (d p t nid d2 : String)
    (hin : HistoryOK st.history) :
    HistoryOK (toggleAttendance d p t nid st).history ∧
    HistoryOK (resetAttendance d2 st).history :=
  ⟨historyOK_toggle st d p t nid hin, historyOK_reset st d2 hin⟩

/-- Witness for claim C5 at the empty store. -/
theorem claim_c5_witness :
    HistoryOK (toggleAttendance "2024-03-10" "Yolanda" "05:00:00" "id1" ⟨[], []⟩).history ∧
    HistoryOK (resetAttendance "2024-03-11" ⟨[], []⟩).history :=
  claim_c5_invariant ⟨[], []⟩ "2024-03-10" "Yolanda" "05:00:00" "id1" "2024-03-11"
    (by simp [HistoryOK])

/-- Claim C3: toggling a name that the day's record set contains exactly
once (the decomposition says where) flips that record; the transition to
present stores the wall-clock time, the transition to absent clears it;
exactly one log entry is appended, ARRIVED (masuk) or LEFT (keluar)
matching the transition; all other records of the day and all other date
keys are unchanged. -/
theorem claim_c3_toggle_transition (st : AppState) (d p t nid : String)
    (pre post : List AttendanceRecord) (r : AttendanceRecord)
    (hdecomp : currentAttendance st.history d = pre ++ r :: post)
    (hname : r.name = p)
    (hpre : ∀ x ∈ pre, x.name ≠ p) (hpost : ∀ x ∈ post, x.name ≠ p) :
    (toggleAttendance d p t nid st).history.lookup d =
      some (pre ++ ⟨r.name, if !r.isPresent then some t else none, !r.isPresent⟩ :: post) ∧
    (toggleAttendance d p t nid st).logs =
      appendLog ⟨nid, p, if !r.isPresent then LogAction.masuk else LogAction.keluar, t, d⟩
        st.logs ∧
    (∀ d2, d2 ≠ d →
      (toggleAttendance d p t nid st).history.lookup d2 = st.history.lookup d2) := by
  rw [toggleAttendance_decomp st d p t nid pre post r hdecomp hname hpre hpost]
  exact ⟨lookup_setKey_self d _ st.history, rfl,
    fun d2 h2 => lookup_setKey_ne d d2 _ st.history h2⟩

/-- Witness for claim C3: first toggle of Yolanda on an empty store. -/
theorem claim_c3_witness :
    (toggleAttendance "2024-03-10" "Yolanda" "05:00:00" "id1" ⟨[], []⟩).history.lookup
        "2024-03-10" =
      some ([] ++ ⟨"Yolanda", some "05:00:00", true⟩ :: rosterDefault.tail) ∧
    (toggleAttendance "2024-03-10" "Yolanda" "05:00:00" "id1" ⟨[], []⟩).logs =
      appendLog ⟨"id1", "Yolanda", LogAction.masuk, "05:00:00", "2024-03-10"⟩ [] ∧
    (∀ d2, d2 ≠ "2024-03-10" →
      (toggleAttendance "2024-03-10" "Yolanda" "05:00:00" "id1" ⟨[], []⟩).history.lookup d2 =
        ([] : DailyData).lookup d2) :=
  claim_c3_toggle_transition ⟨[], []⟩ "2024-03-10" "Yolanda" "05:00:00" "id1"
    [] rosterDefault.tail ⟨"Yolanda", none, false⟩ rfl rfl (by decide) (by decide)

/-- Claim C4: toggling the same name twice restores the record's isPresent,
and when the record started absent its time is none again after the second
toggle (the time on the present half is the second wall-clock reading). -/
theorem claim_c4_toggle_involutive (st : AppState) (d p t1 t2 id1 id2 : String)
    (pre post : List AttendanceRecord) (r : AttendanceRecord)
    (hdecomp : currentAttendance st.history d = pre ++ r :: post)
    (hname : r.name = p)
    (hpre : ∀ x ∈ pre, x.name ≠ p) (hpost : ∀ x ∈ post, x.name ≠ p) :
    (toggleAttendance d p t2 id2 (toggleAttendance d p t1 id1 st)).history.lookup d =
      some (pre ++ ⟨r.name, if r.isPresent then some t2 else none, r.isPresent⟩ :: post) ∧
    (r.isPresent = false →
      (⟨r.name, if r.isPresent then some t2 else none, r.isPresent⟩ :
        AttendanceRecord).time = none) := by
  constructor
  · have h1 := toggleAttendance_decomp st d p t1 id1 pre post r hdecomp hname hpre hpost
    have hlook1 : (toggleAttendance d p t1 id1 st).history.lookup d =
        some (pre ++ ⟨r.name, if !r.isPresent then some t1 else none, !r.isPresent⟩ :: post) := by
      rw [h1]
      exact lookup_setKey_self d _ st.history
    have hdecomp1 : currentAttendance (toggleAttendance d p t1 id1 st).history d =
        pre ++ ⟨r.name, if !r.isPresent then some t1 else none, !r.isPresent⟩ :: post := by
      unfold currentAttendance
      rw [hlook1]
    have h2 := toggleAttendance_decomp (toggleAttendance d p t1 id1 st) d p t2 id2
      pre post _ hdecomp1 hname hpre hpost
    rw [h2]
    have h3 := lookup_setKey_self d
      (pre ++ ⟨r.name, if !(!r.isPresent) then some t2 else none, !(!r.isPresent)⟩ :: post)
      (toggleAttendance d p t1 id1 st).history
    rw [h3, Bool.not_not]
  · intro hF
    simp [hF]

/-- Witness for claim C4: double toggle of Yolanda on an empty store. -/
theorem claim_c4_witness :
    (toggleAttendance "2024-03-10" "Yolanda" "06:00:00" "id2"
        (toggleAttendance "2024-03-10" "Yolanda" "05:00:00" "id1" ⟨[], []⟩)).history.lookup
        "2024-03-10" =
      some ([] ++ ⟨"Yolanda", none, false⟩ :: rosterDefault.tail) ∧
    ((⟨"Yolanda", none, false⟩ : AttendanceRecord).isPresent = false →
      (⟨"Yolanda", none, false⟩ : AttendanceRecord).time = none) :=
  claim_c4_toggle_involutive ⟨[], []⟩ "2024-03-10" "Yolanda" "05:00:00" "06:00:00"
    "id1" "id2" [] rosterDefault.tail ⟨"Yolanda", none, false⟩ rfl rfl
    (by decide) (by decide)

/- Lemmas about the capped log. -/

theorem take_append_take (a b : List LogEntry) (n : Nat) :
    (a ++ b.take n).take n = (a ++ b).take n := by
  rw [List.take_append_eq_append_take, List.take_append_eq_append_take, List.take_take]
  rw [Nat.min_eq_left (Nat.sub_le n a.length)]

theorem appendAll_take (es : List LogEntry) (l : List LogEntry)
    (hl : l.length ≤ 100) :
    appendAll es l = (es.reverse ++ l).take 100 := by
  induction es generalizing l with
  | nil =>
    unfold appendAll
    rw [List.foldl_nil, List.reverse_nil, List.nil_append,
      List.take_of_length_le hl]
  | cons e es ih =>
    have hstep : appendAll (e :: es) l = appendAll es (appendLog e l) := rfl
    have hlen : (appendLog e l).length ≤ 100 := by
      rw [appendLog, List.length_take]
      exact Nat.min_le_left _ _
    rw [hstep, ih _ hlen, appendLog, take_append_take, List.reverse_cons,
      List.append_assoc, List.singleton_append]

/-- Claim C6: the log append prepends the new entry (an entry appended
later sits strictly in front of one appended earlier) and truncates from
the tail at 100: after 101 appends of pairwise-fresh entries to the empty
log, the length is exactly 100 and the very first appended entry is gone. -/
theorem claim_c6_log_append (l : List LogEntry) (e1 e2 : LogEntry)
    (e0 : LogEntry) (tl : List LogEntry)
    (hlen : tl.length = 100) (hdist : e0 ∉ tl) :
    (appendLog e2 (appendLog e1 l))[0]? = some e2 ∧
    (appendLog e2 (appendLog e1 l))[1]? = some e1 ∧
    (e0 :: tl).length = 101 ∧
    (appendAll (e0 :: tl) []).length = 100 ∧
    e0 ∉ appendAll (e0 :: tl) [] := by
  have hres : appendAll (e0 :: tl) [] = tl.reverse := by
    rw [appendAll_take _ _ (by simp), List.append_nil, List.reverse_cons,
      List.take_append_eq_append_take,
      List.take_of_length_le (by rw [List.length_reverse, hlen])]
    rw [List.length_reverse, hlen]
    simp
  refine ⟨?_, ?_, by simp [hlen], ?_, ?_⟩
  · rw [appendLog, List.getElem?_take]
    simp
  · rw [appendLog, List.getElem?_take]
    simp [appendLog, List.getElem?_take]
  · rw [hres, List.length_reverse, hlen]
  · rw [hres, List.mem_reverse]
    exact hdist

/-- Witness for claim C6: 101 concrete entries with distinct ids. -/
theorem claim_c6_witness :
    (appendLog (wLogEntry 2) (appendLog (wLogEntry 1) []))[0]? = some (wLogEntry 2) ∧
    (appendLog (wLogEntry 2) (appendLog (wLogEntry 1) []))[1]? = some (wLogEntry 1) ∧
    (wLogEntry 0 :: wEntriesTail).length = 101 ∧
    (appendAll (wLogEntry 0 :: wEntriesTail) []).length = 100 ∧
    wLogEntry 0 ∉ appendAll (wLogEntry 0 :: wEntriesTail) [] :=
  claim_c6_log_append [] (wLogEntry 1) (wLogEntry 2) (wLogEntry 0) wEntriesTail
    (by simp [wEntriesTail]) (by decide)

/-- The Monday-start bounds: the week start is a Monday at most 6 days
back from today. -/
theorem startOfWeekMon_bounds (t : Int) :
    jsGetDay (startOfWeekMon t) = 1 ∧ startOfWeekMon t ≤ t ∧ t ≤ startOfWeekMon t + 6 := by
  simp only [startOfWeekMon, jsGetDay]
  refine ⟨?_, ?_, ?_⟩ <;> omega

/-- Claim C8: the weekly statistics have exactly 7 entries, one per day of
the Monday-starting week containing today, in Monday-to-Sunday order; a
date key missing from the store contributes a present count of zero; and
exactly one entry is flagged isToday, the one whose date is today. -/
theorem claim_c8_weekly_stats (todayD : Int) (h : DailyData) :
    (weeklyStats todayD h).length = 7 ∧
    (weeklyStats todayD h).map (fun e => e.fullDate) =
      (List.range 7).map (fun (i : Nat) => formatDate (startOfWeekMon todayD + (i : Int))) ∧
    jsGetDay (startOfWeekMon todayD) = 1 ∧
    startOfWeekMon todayD ≤ todayD ∧ todayD ≤ startOfWeekMon todayD + 6 ∧
    (∀ e ∈ weeklyStats todayD h, h.lookup e.fullDate = none → e.count = 0) ∧
    (weeklyStats todayD h).countP (fun e => e.isToday) = 1 ∧
    (∀ e ∈ weeklyStats todayD h, e.isToday = true → e.fullDate = formatDate todayD) := by
  obtain ⟨hmon, hlo, hhi⟩ := startOfWeekMon_bounds todayD
  refine ⟨?_, ?_, hmon, hlo, hhi, ?_, ?_, ?_⟩
  · unfold weeklyStats
    dsimp only
    rw [List.length_map, List.length_map, List.length_range]
  · unfold weeklyStats
    dsimp only
    rw [List.map_map, List.map_map]
    rfl
  · intro e he hnone
    unfold weeklyStats at he
    dsimp only at he
    rw [List.map_map] at he
    rw [List.mem_map] at he
    obtain ⟨i, -, rfl⟩ := he
    dsimp only [Function.comp] at hnone ⊢
    rw [hnone]
    rfl
  · unfold weeklyStats
    dsimp only
    rw [show List.range 7 = [0, 1, 2, 3, 4, 5, 6] from rfl]
    simp only [List.map_cons, List.map_nil, List.countP_cons, List.countP_nil]
    dsimp only
    simp only [beq_iff_eq]
    split_ifs <;> omega
  · intro e he htoday
    unfold weeklyStats at he
    dsimp only at he
    rw [List.map_map] at he
    rw [List.mem_map] at he
    obtain ⟨i, -, rfl⟩ := he
    dsimp only [Function.comp] at htoday ⊢
    have hi : startOfWeekMon todayD + (i : Int) = todayD := by
      simpa [beq_iff_eq] using htoday
    rw [hi]

/-- Witness for claim C8 at a concrete day number and the empty store. -/
theorem claim_c8_witness :
    (weeklyStats 20000 []).length = 7 ∧
    (weeklyStats 20000 []).countP (fun e => e.isToday) = 1 :=
  ⟨(claim_c8_weekly_stats 20000 []).1,
   (claim_c8_weekly_stats 20000 []).2.2.2.2.2.2.1⟩

/-- With unique keys, the per-entry count walked by the friendStats loop is
the number of distinct date keys whose stored array has this friend
present. -/
theorem friendTotal_eq_keyCount (h : DailyData) (n : String)
    (hk : (h.map Prod.fst).Nodup) :
    friendTotal h n =
      ((h.map Prod.fst).filter
        (fun k => ((h.lookup k).getD []).any
          (fun r => r.name == n && r.isPresent))).length := by
  induction h with
  | nil => rfl
  | cons q rest ih =>
    obtain ⟨k0, v0⟩ := q
    simp only [List.map_cons, List.nodup_cons] at hk
    obtain ⟨hk0, hkrest⟩ := hk
    have hself : (k0 == k0) = true := by simp
    have htail :
        ((rest.map Prod.fst).filter
          (fun k => ((List.lookup k ((k0, v0) :: rest)).getD []).any
            (fun r => r.name == n && r.isPresent))) =
        ((rest.map Prod.fst).filter
          (fun k => ((List.lookup k rest).getD []).any
            (fun r => r.name == n && r.isPresent))) := by
      apply List.filter_congr
      intro k hkmem
      have hne : (k == k0) = false := by
        simp only [beq_eq_false_iff_ne]
        intro heq
        exact hk0 (heq ▸ hkmem)
      simp only [List.lookup_cons, hne]
    unfold friendTotal
    simp only [List.map_cons, List.filter_cons]
    have hhead :
        (((List.lookup k0 ((k0, v0) :: rest)).getD []).any
          (fun r => r.name == n && r.isPresent)) =
        (v0.any (fun r => r.name == n && r.isPresent)) := by
      simp only [List.lookup_cons, hself, Option.getD_some]
    rw [hhead, htail]
    cases hpred : v0.any (fun r => r.name == n && r.isPresent) with
    | true =>
      simp only [if_true, List.length_cons]
      have hr := ih hkrest
      unfold friendTotal at hr
      rw [hr]
    | false =>
      simp only [Bool.false_eq_true, if_false]
      have hr := ih hkrest
      unfold friendTotal at hr
      rw [hr]

/-- Claim C9: friend statistics have one entry per roster participant; each
entry's total is the number of distinct date keys whose stored array has
that friend present; the list is sorted descending by total; and within
equal totals the roster order is preserved (stable sort). -/
theorem claim_c9_friend_stats (h : DailyData) (hk : (h.map Prod.fst).Nodup) :
    (friendStats h).length = FRIENDS.length ∧
    ((friendStats h).map (fun e => e.name)).Perm FRIENDS ∧
    (∀ e ∈ friendStats h, e.total =
      ((h.map Prod.fst).filter
        (fun k => ((h.lookup k).getD []).any
          (fun r => r.name == e.name && r.isPresent))).length) ∧
    (friendStats h).Pairwise (fun a b => b.total ≤ a.total) ∧
    (∀ t, ((friendStats h).filter (fun e => e.total == t)).map (fun e => e.name) =
      FRIENDS.filter (fun nm => friendTotal h nm == t)) := by
  have htrans : ∀ (a b c : FriendStat),
      decide (b.total ≤ a.total) = true → decide (c.total ≤ b.total) = true →
      decide (c.total ≤ a.total) = true := by
    intro a b c hab hbc
    exact decide_eq_true (Nat.le_trans (of_decide_eq_true hbc) (of_decide_eq_true hab))
  have htot : ∀ (a b : FriendStat),
      (decide (b.total ≤ a.total) || decide (a.total ≤ b.total)) = true := by
    intro a b
    rcases Nat.le_total b.total a.total with hle | hle
    · simp [hle]
    · simp [hle]
  have hperm : (friendStats h).Perm (friendStatsBase h) :=
    List.mergeSort_perm (friendStatsBase h) _
  have hbasenames : (friendStatsBase h).map (fun e => e.name) = FRIENDS := by
    unfold friendStatsBase
    rw [List.map_map]
    exact List.map_id FRIENDS
  refine ⟨?_, ?_, ?_, ?_, ?_⟩
  · unfold friendStats friendStatsBase
    rw [List.length_mergeSort, List.length_map]
  · exact hbasenames ▸ hperm.map (fun e => e.name)
  · intro e he
    unfold friendStats at he
    rw [List.mem_mergeSort] at he
    unfold friendStatsBase at he
    rw [List.mem_map] at he
    obtain ⟨nm, hnm, rfl⟩ := he
    dsimp only
    exact friendTotal_eq_keyCount h nm hk
  · have hsorted := List.sorted_mergeSort htrans htot (friendStatsBase h)
    unfold friendStats
    exact hsorted.imp (fun hab => of_decide_eq_true hab)
  · intro t
    have hApair : ((friendStatsBase h).filter (fun e => e.total == t)).Pairwise
        (fun a b => decide (b.total ≤ a.total) = true) := by
      apply List.pairwise_of_forall_mem_list
      intro a ha b hb
      have hat : a.total = t := by
        have := (List.mem_filter.mp ha).2
        simpa [beq_iff_eq] using this
      have hbt : b.total = t := by
        have := (List.mem_filter.mp hb).2
        simpa [beq_iff_eq] using this
      simp [hat, hbt]
    have hsub : ((friendStatsBase h).filter (fun e => e.total == t)).Sublist
        (friendStats h) := by
      unfold friendStats
      exact List.sublist_mergeSort htrans htot hApair
        (List.filter_sublist (friendStatsBase h))
    have hAfiltered : ((friendStatsBase h).filter (fun e => e.total == t)).filter
        (fun e => e.total == t) = (friendStatsBase h).filter (fun e => e.total == t) :=
      List.filter_eq_self.mpr (fun a ha => (List.mem_filter.mp ha).2)
    have hsub2 : ((friendStatsBase h).filter (fun e => e.total == t)).Sublist
        ((friendStats h).filter (fun e => e.total == t)) := by
      rw [← hAfiltered]
      exact hsub.filter (fun e => e.total == t)
    have hlen2 : ((friendStatsBase h).filter (fun e => e.total == t)).length =
        ((friendStats h).filter (fun e => e.total == t)).length :=
      ((hperm.filter (fun e => e.total == t)).length_eq).symm
    have heq : (friendStats h).filter (fun e => e.total == t) =
        (friendStatsBase h).filter (fun e => e.total == t) :=
      (hsub2.eq_of_length hlen2).symm
    rw [heq]
    unfold friendStatsBase
    rw [List.filter_map, List.map_map]
    exact List.map_id _

/-- Witness for claim C9 at the empty store. -/
theorem claim_c9_witness :
    (friendStats []).length = FRIENDS.length ∧
    ((friendStats []).filter (fun e => e.total == 0)).map (fun e => e.name) =
      FRIENDS.filter (fun nm => friendTotal [] nm == 0) :=
  ⟨(claim_c9_friend_stats [] (by simp)).1,
   (claim_c9_friend_stats [] (by simp)).2.2.2.2 0⟩

/-- Counterexample to claim C1: with the malformed string consisting of a
single opening brace stored under the attendance-history key, startup does
not fall back to the empty store: the initializer calls JSON.parse with no
try/catch, so the SyntaxError escapes and startup faults. -/
theorem claim_c1_counterexample :
    isStartupFault (loadHistory (some "\x7b")) = true ∧
    loadHistory (some "\x7b") ≠ Except.ok (Json.obj []) := by
  have hval : loadHistory (some "\x7b") = Except.error "SyntaxError" := rfl
  refine ⟨rfl, ?_⟩
  rw [hval]
  intro hcontra
  exact Except.noConfusion hcontra

/-- Claim C1 as amended: an absent stored value does start the app with the
empty store and empty log, but a present malformed value is not recovered
from: the JSON.parse SyntaxError escapes the useState initializer, so
startup faults instead of silently substituting the empty default. -/
theorem claim_c1_amended (s : String) (hbad : jsonParse s = none)
    (hne : s.isEmpty = false) :
    loadHistory none = Except.ok (Json.obj []) ∧
    loadLogs none = Except.ok (Json.arr []) ∧
    loadHistory (some s) = Except.error "SyntaxError" ∧
    loadLogs (some s) = Except.error "SyntaxError" := by
  refine ⟨rfl, rfl, ?_, ?_⟩
  · unfold loadHistory
    simp only [hne, Bool.false_eq_true, if_false, hbad]
  · unfold loadLogs
    simp only [hne, Bool.false_eq_true, if_false, hbad]

/-- Witness for the amended claim C1 at the malformed stored string. -/
theorem claim_c1_witness :
    loadHistory none = Except.ok (Json.obj []) ∧
    loadLogs none = Except.ok (Json.arr []) ∧
    loadHistory (some "\x7b") = Except.error "SyntaxError" ∧
    loadLogs (some "\x7b") = Except.error "SyntaxError" :=
  claim_c1_amended "\x7b" rfl rfl

end Attendance
